import Mathlib

/-!
Verification of the rss-aggregator concurrent core.

Shallow embedding of the repository's core components:

* the token-bucket rate limiter (`internal/middleware`, file shipped next to
  `ratelimit_test.go`): `TokenBucket`, `NewTokenBucket`, `TokenBucket.Consume`,
  the global-limiter middleware `RateLimit`;
* the realtime hub (`internal/realtime/hub.go`): the coordinator loop's three
  cases (`registerStep`, `unregisterStep`, the `signal` case `submitOne` /
  `submitStep`);
* the scraper (`internal/scraper`): the per-item ingest accounting of
  `scrapeFeed` and the tick loop of `StartScraping`.

Modelling conventions: Go `float64` token arithmetic is embedded over `ℚ`
(exact arithmetic, the algorithm is unchanged); `time.Time` instants are
rationals, and since Go's `time.Now().Sub` uses the monotonic clock, elapsed
times are nonnegative, which appears as `lastRefill ≤ now` hypotheses.
Goroutine channels (`client.send`) are embedded as explicit per-connection
queues inside a hub state record, and the serialized coordinator loop as pure
state-transition functions, one per `select` case.
-/

/-- Embeds the Go struct `TokenBucket` (fields `tokens`, `capacity`,
`refillRate`, `lastRefill`); the mutex is not represented since the embedded
operations are atomic state transitions. -/
structure TokenBucket where
  tokens : ℚ
  capacity : ℚ
  refillRate : ℚ
  lastRefill : ℚ
  deriving DecidableEq, Repr

/-- Embeds `NewTokenBucket(capacity, refillRate)`; `now` stands for the
`time.Now()` read in the constructor. -/
def NewTokenBucket (capacity refillRate now : ℚ) : TokenBucket :=
  { tokens := capacity, capacity := capacity, refillRate := refillRate, lastRefill := now }

/-- Embeds `(*TokenBucket).Consume()`: refill by `elapsed * refillRate`, cap
at `capacity`, set `lastRefill := now`, then consume one token if at least one
is available. Returns the updated bucket and the Go return value. -/
def TokenBucket.Consume (tb : TokenBucket) (now : ℚ) : TokenBucket × Bool :=
  let elapsed := now - tb.lastRefill
  let refilled := tb.tokens + elapsed * tb.refillRate
  let capped := if refilled > tb.capacity then tb.capacity else refilled
  if capped ≥ 1 then
    ({ tb with tokens := capped - 1, lastRefill := now }, true)
  else
    ({ tb with tokens := capped, lastRefill := now }, false)

/-- Spec-side predicate: the observable token count lies in `[0, capacity]`. -/
def BucketOK (tb : TokenBucket) : Prop :=
  0 ≤ tb.tokens ∧ tb.tokens ≤ tb.capacity

/-- A sequence of `Consume` calls, threading the bucket state; embeds repeated
calls to `(*TokenBucket).Consume()` at the given `time.Now()` instants. -/
def consumeSeq (tb : TokenBucket) (times : List ℚ) : TokenBucket :=
  times.foldl (fun b t => (b.Consume t).1) tb

/-- Per Go's monotonic clock, successive `time.Now()` reads never decrease:
`chainLE t0 ts` checks the call instants are nondecreasing starting from the
construction instant `t0`. -/
def chainLE : ℚ → List ℚ → Bool
  | _, [] => true
  | t0, t :: ts => decide (t0 ≤ t) && chainLE t ts

/-- Runs `n` back-to-back `Consume` calls at the same instant, returning the
final bucket and the list of Go return values in call order. -/
def consumeRun (tb : TokenBucket) (now : ℚ) : Nat → TokenBucket × List Bool
  | 0 => (tb, [])
  | n + 1 =>
    let r := tb.Consume now
    let rest := consumeRun r.1 now n
    (rest.1, r.2 :: rest.2)

/-- Bucket state after the burst of `C` immediate `Consume` calls on a fresh
full bucket (the scenario of the spec's token-bucket testable property). -/
def burstState (C : ℕ) (R t0 : ℚ) : TokenBucket :=
  (consumeRun (NewTokenBucket C R t0) t0 C).1

/-- Bucket state after the burst and one further (failing) immediate call. -/
def afterFail (C : ℕ) (R t0 : ℚ) : TokenBucket :=
  ((burstState C R t0).Consume t0).1

/-- Bucket state after additionally waiting `1/R` and consuming once more. -/
def afterRefillConsume (C : ℕ) (R t0 : ℚ) : TokenBucket :=
  ((afterFail C R t0).Consume (t0 + 1 / R)).1

/-- Embeds the Go struct `RateLimitConfig`. -/
structure RateLimitConfig where
  RequestsPerMinute : ℚ
  BurstSize : ℚ
  deriving DecidableEq, Repr

/-- Embeds `InitRateLimiter(config)`: sets the global `limiter` to a bucket of
capacity `BurstSize` refilling at `RequestsPerMinute / 60` tokens per second.
The global `limiter` variable is threaded explicitly as an
`Option TokenBucket` (`none` = never initialized, the Go `nil`). -/
def InitRateLimiter (config : RateLimitConfig) (now : ℚ) : Option TokenBucket :=
  some (NewTokenBucket config.BurstSize (config.RequestsPerMinute / 60) now)

/-- What the `RateLimit` middleware does with one request: forward it to the
next handler, or reject it with HTTP 429. -/
inductive RateLimitOutcome where
  | forwarded
  | rejected429
  deriving DecidableEq, Repr

/-- Embeds the `RateLimit` middleware body for a single request: a `nil`
limiter forwards unconditionally; otherwise one `Consume()` call decides
between forwarding and a 429 response. Returns the limiter state after the
request together with the outcome. -/
def RateLimit (limiter : Option TokenBucket) (now : ℚ) : Option TokenBucket × RateLimitOutcome :=
  match limiter with
  | none => (none, RateLimitOutcome.forwarded)
  | some tb =>
    let r := tb.Consume now
    if r.2 then (some r.1, RateLimitOutcome.forwarded)
    else (some r.1, RateLimitOutcome.rejected429)

/-! ## Realtime hub (`internal/realtime/hub.go`, client in `part_006`)

The hub's `Run` loop serializes three kinds of operations; each `select` case
is embedded as one pure state transition. Connections are named by `ConnID`
(standing for the `*Client` pointer identity), users by `UserID` (the
`uuid.UUID` key of the `clients` map). A client's buffered `send` channel is
modelled by a queue in `queues`, and `close(client.send)` by recording the
`ConnID` in `closedChans`. `sendCap` is the channel capacity (256 in
`NewClient`). -/

abbrev UserID := Nat

abbrev ConnID := Nat

abbrev Payload := List Nat

/-- Embeds the fields of `realtime.Client` relevant to the hub: the channel
identity (`cid`, standing for the `send` channel / pointer identity) and the
`userID` the hub keys its registry by. -/
structure Client where
  cid : ConnID
  userID : UserID
  deriving DecidableEq, Repr

/-- Hub state: the `clients` registry map plus the per-connection channel
heap (queue contents and closedness). -/
structure HubState where
  clients : List (UserID × ConnID)
  queues : List (ConnID × List Payload)
  closedChans : List ConnID
  sendCap : Nat
  deriving DecidableEq, Repr

/-- Go map read `m[k]` on an association list. -/
def lookupKey (k : Nat) : List (Nat × α) → Option α
  | [] => none
  | p :: rest => if p.1 = k then some p.2 else lookupKey k rest

/-- Go map `delete(m, k)` on an association list. -/
def eraseKey (k : Nat) : List (Nat × α) → List (Nat × α)
  | [] => []
  | p :: rest => if p.1 = k then eraseKey k rest else p :: eraseKey k rest

/-- Go map write `m[k] = v` on an association list. -/
def setKey (k : Nat) (v : α) (l : List (Nat × α)) : List (Nat × α) :=
  (k, v) :: eraseKey k l

/-- Embeds the `case client := <-hub.register` arm of `Run`:
`hub.clients[client.userID] = client`. -/
def registerStep (s : HubState) (c : Client) : HubState :=
  { s with clients := setKey c.userID c.cid s.clients }

/-- Embeds the `case client := <-hub.unregister` arm of `Run`: if an entry
exists under `client.userID`, delete it and `close(client.send)` — note the
channel closed is the argument client's own `send`, whichever connection the
registry entry currently routes to. -/
def unregisterStep (s : HubState) (c : Client) : HubState :=
  match lookupKey c.userID s.clients with
  | some _ =>
    { s with clients := eraseKey c.userID s.clients, closedChans := c.cid :: s.closedChans }
  | none => s

/-- Embeds the body of the `for userID, payload := range signals` loop in the
`case signals := <-hub.signal` arm of `Run` for one `(userID, payload)` pair:
an unregistered identity is skipped; otherwise a non-blocking send
(`select { case client.send <- payload: default: ... }`) either enqueues (when
the buffered channel has room) or, when the queue is full, closes the
channel and deletes the registry entry. -/
def submitOne (s : HubState) (uid : UserID) (payload : Payload) : HubState :=
  match lookupKey uid s.clients with
  | none => s
  | some cid =>
    let q := (lookupKey cid s.queues).getD []
    if q.length < s.sendCap then
      { s with queues := setKey cid (q ++ [payload]) s.queues }
    else
      { s with clients := eraseKey uid s.clients, closedChans := cid :: s.closedChans }

/-- Embeds the whole `signal` arm (`SendSignal` delivery): iterate `submitOne`
over the `(userID, payload)` pairs of the signals map. -/
def submitStep (s : HubState) (signals : List (UserID × Payload)) : HubState :=
  signals.foldl (fun st p => submitOne st p.1 p.2) s

/-! ## Scraper (`internal/scraper`, `part_007`)

The per-item accounting of `(*Scraper).scrapeFeed` and the tick loop of
`StartScraping`. -/

/-- Outcome of one `db.CreatePost` call as `scrapeFeed` classifies it: success,
a `*pq.Error` with its SQLSTATE code (the unique-violation code is `23505`),
or any other error value. -/
inductive CreatePostResult where
  | created
  | pqError (code : String)
  | otherError
  deriving DecidableEq, Repr

/-- Observable per-feed accounting of the `scrapeFeed` item loop:
`newPostCount` is the Go local of the same name, `errorsLogged` counts
executions of the `Failed to create post` error log, `processed` counts loop
iterations completed (the loop never aborts early on an insert failure). -/
structure ScrapeState where
  newPostCount : Nat
  errorsLogged : Nat
  processed : Nat
  deriving DecidableEq, Repr

/-- Embeds one iteration of the item loop of `(*Scraper).scrapeFeed`, given
how `db.CreatePost` resolved for the item: success increments `newPostCount`;
a `pq.Error` with code `23505` is skipped silently (`continue`); any other
error is logged and the loop moves on. -/
def scrapeStep (s : ScrapeState) (r : CreatePostResult) : ScrapeState :=
  match r with
  | CreatePostResult.created =>
    { s with newPostCount := s.newPostCount + 1, processed := s.processed + 1 }
  | CreatePostResult.pqError code =>
    if code = "23505" then { s with processed := s.processed + 1 }
    else { s with errorsLogged := s.errorsLogged + 1, processed := s.processed + 1 }
  | CreatePostResult.otherError =>
    { s with errorsLogged := s.errorsLogged + 1, processed := s.processed + 1 }

/-- Embeds the whole item loop of `scrapeFeed` over the feed's items, starting
from `newPostCount := 0`. -/
def scrapeFeedItems (rs : List CreatePostResult) : ScrapeState :=
  rs.foldl scrapeStep { newPostCount := 0, errorsLogged := 0, processed := 0 }

/-- Spec-side count of successful inserts in a list of outcomes. -/
def createdCount : List CreatePostResult → Nat
  | [] => 0
  | CreatePostResult.created :: rs => createdCount rs + 1
  | _ :: rs => createdCount rs

/-- Spec-side count of non-duplicate insert failures (the ones the spec says
are logged and skipped). -/
def hardFailureCount : List CreatePostResult → Nat
  | [] => 0
  | CreatePostResult.created :: rs => hardFailureCount rs
  | CreatePostResult.pqError code :: rs =>
    if code = "23505" then hardFailureCount rs else hardFailureCount rs + 1
  | CreatePostResult.otherError :: rs => hardFailureCount rs + 1

/-- Embeds the feed rows the scheduler reads: id, `priority`, `updated_at`
(timestamps as integers). -/
structure Feed where
  id : Nat
  priority : Int
  updatedAt : Int
  deriving DecidableEq, Repr

/-- Spec-side ordering of the `GetFeedsByPriority` query:
`ORDER BY priority DESC, updated_at ASC`. -/
def feedOrder (a b : Feed) : Prop :=
  b.priority < a.priority ∨ (a.priority = b.priority ∧ a.updatedAt ≤ b.updatedAt)

instance : DecidableRel feedOrder := fun a b => by
  unfold feedOrder
  infer_instance

instance : IsTotal Feed feedOrder := ⟨by
  intro a b
  unfold feedOrder
  rcases lt_trichotomy a.priority b.priority with h | h | h
  · right
    left
    exact h
  · rcases le_total a.updatedAt b.updatedAt with hu | hu
    · left
      right
      exact ⟨h, hu⟩
    · right
      right
      exact ⟨h.symm, hu⟩
  · left
    left
    exact h⟩

instance : IsTrans Feed feedOrder := ⟨by
  intro a b c hab hbc
  unfold feedOrder at hab hbc ⊢
  omega⟩

/-- Embeds the sqlc query `GetFeedsByPriority` (`sql/queries/feeds.sql`):
`SELECT * FROM feeds ORDER BY priority DESC, updated_at ASC`; the database's
sort is modelled as a sort of the table's rows by that key. -/
def GetFeedsByPriority (db : List Feed) : List Feed :=
  List.insertionSort feedOrder db

/-- Embeds the dispatch loop of `StartScraping`
(`for _, feed := range feeds { wg.Add(1); go scrapeFeed(db, wg, feed) }`): the
sequence of per-source tasks launched, in program order, one per feed row. -/
def startCycle (db : List Feed) : List Feed :=
  (GetFeedsByPriority db).foldl (fun acc f => acc ++ [f]) []

/-- Events of the scheduler loop's program order: a ticker tick starting cycle
`cycle`, the `go scrapeFeed` launch of the task for feed `feedID`, and the
completion of that task as observed by the cycle's `wg.Wait()` barrier. -/
inductive SchedEvent where
  | tick (cycle : Nat)
  | spawn (cycle : Nat) (feedID : Nat)
  | join (cycle : Nat) (feedID : Nat)
  deriving DecidableEq, Repr

/-- Embeds one iteration of the `for range ticker.C` loop of `StartScraping`:
the tick is received, every per-feed task is launched in list order, and then
`wg.Wait()` blocks until every launched task has completed — so all `join`
events of the cycle precede anything the loop does afterwards. -/
def cycleEvents (i : Nat) (db : List Feed) : List SchedEvent :=
  SchedEvent.tick i ::
    ((GetFeedsByPriority db).map (fun f => SchedEvent.spawn i f.id) ++
      (GetFeedsByPriority db).map (fun f => SchedEvent.join i f.id))

/-- Embeds the scheduler loop of `StartScraping` over successive ticks, with
`dbs` the feed table read at each tick: because each iteration ends in
`wg.Wait()`, the next tick's events follow the previous cycle's joins. -/
def schedulerTrace : Nat → List (List Feed) → List SchedEvent
  | _, [] => []
  | i, db :: rest => cycleEvents i db ++ schedulerTrace (i + 1) rest

/-- Removes the first occurrence of a task from the pending multiset (the
task the barrier just saw complete). -/
def eraseTask (x : Nat × Nat) : List (Nat × Nat) → List (Nat × Nat)
  | [] => []
  | y :: rest => if y = x then rest else y :: eraseTask x rest

/-- Checker for cycle overlap: scans the event trace keeping the multiset of
still-running tasks, and reports `true` only when every tick fires with no
task of an earlier cycle still pending. -/
def overlapFreeAux : List (Nat × Nat) → List SchedEvent → Bool
  | _, [] => true
  | pend, SchedEvent.tick _ :: rest => pend.isEmpty && overlapFreeAux pend rest
  | pend, SchedEvent.spawn i f :: rest => overlapFreeAux ((i, f) :: pend) rest
  | pend, SchedEvent.join i f :: rest => overlapFreeAux (eraseTask (i, f) pend) rest

/-! ## Token bucket theorems -/

/-- C1: on every `Consume` call the bucket is first refilled by
`elapsed * refillRate` and capped at `capacity`, `lastRefill` is set to the
current time, and then one token is consumed and `true` returned exactly when
the refilled count is at least 1; otherwise the count stays at the refilled
value and `false` is returned. -/
theorem consume_refill_cap_spec (tb : TokenBucket) (now : ℚ) :
    (tb.Consume now).1.lastRefill = now ∧
    (tb.Consume now).1.capacity = tb.capacity ∧
    (tb.Consume now).1.refillRate = tb.refillRate ∧
    (if 1 ≤ min (tb.tokens + (now - tb.lastRefill) * tb.refillRate) tb.capacity then
      (tb.Consume now).1.tokens =
          min (tb.tokens + (now - tb.lastRefill) * tb.refillRate) tb.capacity - 1 ∧
        (tb.Consume now).2 = true
    else
      (tb.Consume now).1.tokens =
          min (tb.tokens + (now - tb.lastRefill) * tb.refillRate) tb.capacity ∧
        (tb.Consume now).2 = false) := by
  have hmin :
      (if tb.tokens + (now - tb.lastRefill) * tb.refillRate > tb.capacity then tb.capacity
        else tb.tokens + (now - tb.lastRefill) * tb.refillRate) =
        min (tb.tokens + (now - tb.lastRefill) * tb.refillRate) tb.capacity := by
    rcases le_or_lt (tb.tokens + (now - tb.lastRefill) * tb.refillRate) tb.capacity with h | h
    · rw [if_neg (not_lt.mpr h), min_eq_left h]
    · rw [if_pos h, min_eq_right h.le]
  simp only [TokenBucket.Consume, hmin, ge_iff_le]
  split_ifs with h <;> simp

/-- Refill nonnegativity: one `Consume` at a non-earlier instant keeps a
well-formed bucket's token count in `[0, capacity]` when the refill rate is
nonnegative, and leaves `capacity` and `refillRate` unchanged. -/
theorem consume_inv (tb : TokenBucket) (now : ℚ) (h : BucketOK tb)
    (hr : 0 ≤ tb.refillRate) (ht : tb.lastRefill ≤ now) :
    BucketOK (tb.Consume now).1 ∧ (tb.Consume now).1.capacity = tb.capacity ∧
      (tb.Consume now).1.refillRate = tb.refillRate ∧
      (tb.Consume now).1.lastRefill = now := by
  obtain ⟨h0, h1⟩ := h
  have hel : 0 ≤ (now - tb.lastRefill) * tb.refillRate :=
    mul_nonneg (sub_nonneg.mpr ht) hr
  simp only [BucketOK, TokenBucket.Consume, ge_iff_le]
  split_ifs with h2 h3 h3 <;> refine ⟨⟨?_, ?_⟩, rfl, rfl, rfl⟩ <;> dsimp <;> linarith

/-- One token is never double-spent and the cap holds: the invariant extends
along any nondecreasing sequence of `Consume` instants. -/
theorem consumeSeq_inv : ∀ (ts : List ℚ) (tb : TokenBucket), BucketOK tb →
    0 ≤ tb.refillRate → chainLE tb.lastRefill ts = true →
    BucketOK (consumeSeq tb ts) ∧ (consumeSeq tb ts).capacity = tb.capacity ∧
      (consumeSeq tb ts).refillRate = tb.refillRate := by
  intro ts
  induction ts with
  | nil =>
    intro tb h _ _
    exact ⟨h, rfl, rfl⟩
  | cons t ts ih =>
    intro tb h hr hch
    simp only [chainLE, Bool.and_eq_true, decide_eq_true_eq] at hch
    obtain ⟨hle, hch⟩ := hch
    have step := consume_inv tb t h hr hle
    have hrw : consumeSeq tb (t :: ts) = consumeSeq (tb.Consume t).1 ts := by
      simp [consumeSeq]
    rw [hrw]
    have tail := ih (tb.Consume t).1 step.1 (by rw [step.2.2.1]; exact hr)
      (by rw [step.2.2.2]; exact hch)
    exact ⟨tail.1, by rw [tail.2.1, step.2.1], by rw [tail.2.2, step.2.2.1]⟩

/-- C5 (amended): for a bucket built by `NewTokenBucket` with capacity
`C ≥ 0` and refill rate `R ≥ 0`, the token count is in `[0, C]` right after
construction and after every `Consume` call of any sequence of calls at
(monotone-clock) instants. -/
theorem tokenBucket_tokens_in_range (C R t0 : ℚ) (ts : List ℚ)
    (hC : 0 ≤ C) (hR : 0 ≤ R) (hts : chainLE t0 ts = true) :
    (0 ≤ (NewTokenBucket C R t0).tokens ∧ (NewTokenBucket C R t0).tokens ≤ C) ∧
    0 ≤ (consumeSeq (NewTokenBucket C R t0) ts).tokens ∧
      (consumeSeq (NewTokenBucket C R t0) ts).tokens ≤ C := by
  have h0 : BucketOK (NewTokenBucket C R t0) := ⟨hC, le_refl C⟩
  have h := consumeSeq_inv ts (NewTokenBucket C R t0) h0 hR hts
  refine ⟨⟨hC, le_refl C⟩, h.1.1, ?_⟩
  have h2 := h.1.2
  rwa [h.2.1] at h2

/-- C5 counterexample: the claim as stated constrains only the capacity
(`C ≥ 0`), but a bucket created with a negative refill rate drives its token
count strictly below 0 on an ordinary later `Consume` call, so the interval
invariant fails without a nonnegativity assumption on the refill rate. -/
theorem tokenBucket_negative_rate_counterexample :
    (consumeSeq (NewTokenBucket 5 (-1) 0) [10]).tokens = -5 ∧
    ¬ (0 ≤ (consumeSeq (NewTokenBucket 5 (-1) 0) [10]).tokens ∧
        (consumeSeq (NewTokenBucket 5 (-1) 0) [10]).tokens ≤ 5) := by
  have h : (consumeSeq (NewTokenBucket 5 (-1) 0) [10]).tokens = -5 := by
    norm_num [consumeSeq, NewTokenBucket, TokenBucket.Consume]
  refine ⟨h, ?_⟩
  rw [h]
  norm_num

/-- Witness for `tokenBucket_tokens_in_range` at `C = 2`, `R = 1`, `t0 = 0`
and call instants `0, 1, 3`. -/
theorem tokenBucket_tokens_in_range_witness :
    (0 ≤ (NewTokenBucket 2 1 0).tokens ∧ (NewTokenBucket 2 1 0).tokens ≤ 2) ∧
    0 ≤ (consumeSeq (NewTokenBucket 2 1 0) [0, 1, 3]).tokens ∧
      (consumeSeq (NewTokenBucket 2 1 0) [0, 1, 3]).tokens ≤ 2 :=
  tokenBucket_tokens_in_range 2 1 0 [0, 1, 3] (by norm_num) (by norm_num)
    (by norm_num [chainLE])

/-- A `Consume` at the very instant of the last refill adds no tokens: it
just decrements (and succeeds) when at least one token is present. -/
theorem consume_at_lastRefill (tb : TokenBucket) (hc : tb.tokens ≤ tb.capacity) :
    tb.Consume tb.lastRefill =
      (if 1 ≤ tb.tokens then ({ tb with tokens := tb.tokens - 1 }, true)
       else (tb, false)) := by
  simp only [TokenBucket.Consume, sub_self, zero_mul, add_zero, ge_iff_le]
  rw [if_neg (not_lt.mpr hc)]

/-- A run of `n` immediate `Consume` calls on a bucket holding at least `n`
tokens succeeds every time and removes exactly `n` tokens. -/
theorem consumeRun_all_true : ∀ (n : ℕ) (tb : TokenBucket) (now : ℚ),
    tb.lastRefill = now → tb.tokens ≤ tb.capacity → (n : ℚ) ≤ tb.tokens →
    consumeRun tb now n = ({ tb with tokens := tb.tokens - n }, List.replicate n true) := by
  intro n
  induction n with
  | zero =>
    intro tb now _ _ _
    simp [consumeRun]
  | succ n ih =>
    intro tb now hlr hc hn
    have hn1 : ((n : ℚ) + 1) ≤ tb.tokens := by push_cast at hn; linarith
    have h1 : (1 : ℚ) ≤ tb.tokens := by
      have : (0 : ℚ) ≤ (n : ℚ) := Nat.cast_nonneg n
      linarith
    have hcons : tb.Consume now = ({ tb with tokens := tb.tokens - 1 }, true) := by
      rw [← hlr, consume_at_lastRefill tb hc, if_pos h1]
    have htail := ih { tb with tokens := tb.tokens - 1 } now hlr (by dsimp; linarith)
      (by dsimp; linarith)
    simp only [consumeRun, hcons, htail, List.replicate_succ, Prod.mk.injEq,
      TokenBucket.mk.injEq, Nat.cast_add, Nat.cast_one, and_true, true_and]
    ring

/-- After the burst of `C` immediate calls, a full fresh bucket is exactly
empty, with `lastRefill` unchanged. -/
theorem burstState_eq (C : ℕ) (R t0 : ℚ) :
    burstState C R t0 =
      { tokens := 0, capacity := (C : ℚ), refillRate := R, lastRefill := t0 } := by
  have h := consumeRun_all_true C (NewTokenBucket C R t0) t0 rfl (le_refl _) (le_refl _)
  simp only [burstState, h]
  simp [NewTokenBucket]

/-- The refill cap is unconditional: no `Consume` call ever leaves more than
`capacity` tokens. -/
theorem consume_tokens_le_cap (tb : TokenBucket) (now : ℚ) :
    (tb.Consume now).1.tokens ≤ tb.capacity := by
  simp only [TokenBucket.Consume, ge_iff_le]
  split_ifs with h1 h2 h2 <;> dsimp <;> linarith

/-- C7: a full bucket of integer capacity `C ≥ 1` and refill rate `R > 0`
serves `C` immediate `Consume` calls (all `true`), then refuses the next
immediate call; after exactly `1/R` further time units exactly one more call
succeeds (the following immediate call fails again); and after idling any
duration `d ≥ 0` the token count still does not exceed `C`. -/
theorem tokenBucket_burst_refill (C : ℕ) (R t0 d : ℚ)
    (hC : 1 ≤ C) (hR : 0 < R) (hd : 0 ≤ d) :
    (consumeRun (NewTokenBucket C R t0) t0 C).2 = List.replicate C true ∧
    ((burstState C R t0).Consume t0).2 = false ∧
    ((afterFail C R t0).Consume (t0 + 1 / R)).2 = true ∧
    ((afterRefillConsume C R t0).Consume (t0 + 1 / R)).2 = false ∧
    ((NewTokenBucket C R t0).Consume (t0 + d)).1.tokens ≤ (C : ℚ) := by
  have hC1 : (1 : ℚ) ≤ (C : ℚ) := by exact_mod_cast hC
  have hC0 : (0 : ℚ) ≤ (C : ℚ) := by linarith
  have hrun := consumeRun_all_true C (NewTokenBucket C R t0) t0 rfl (le_refl _) (le_refl _)
  have hburst := burstState_eq C R t0
  have hb : (TokenBucket.mk 0 (C : ℚ) R t0).Consume t0 = (TokenBucket.mk 0 (C : ℚ) R t0, false) := by
    have h := consume_at_lastRefill (TokenBucket.mk 0 (C : ℚ) R t0) (by dsimp; exact hC0)
    rw [if_neg (by norm_num : ¬ (1 : ℚ) ≤ (0 : ℚ))] at h
    exact h
  have hAF : afterFail C R t0 = TokenBucket.mk 0 (C : ℚ) R t0 := by
    rw [afterFail, hburst, hb]
  have hb3 : (TokenBucket.mk 0 (C : ℚ) R t0).Consume (t0 + 1 / R) =
      (TokenBucket.mk 0 (C : ℚ) R (t0 + 1 / R), true) := by
    simp only [TokenBucket.Consume]
    have e1 : (0 : ℚ) + (t0 + 1 / R - t0) * R = 1 := by
      field_simp
      ring
    rw [e1, if_neg (not_lt.mpr hC1), if_pos (le_refl (1 : ℚ))]
    norm_num
  have hARC : afterRefillConsume C R t0 = TokenBucket.mk 0 (C : ℚ) R (t0 + 1 / R) := by
    rw [afterRefillConsume, hAF, hb3]
  have hb4 := consume_at_lastRefill (TokenBucket.mk 0 (C : ℚ) R (t0 + 1 / R)) (by dsimp; exact hC0)
  rw [if_neg (by norm_num : ¬ (1 : ℚ) ≤ (0 : ℚ))] at hb4
  refine ⟨by rw [hrun], by rw [hburst, hb], by rw [hAF, hb3], ?_, ?_⟩
  · rw [hARC]
    exact congrArg Prod.snd hb4
  · exact consume_tokens_le_cap (NewTokenBucket C R t0) (t0 + d)

/-- Witness for `tokenBucket_burst_refill` at `C = 2`, `R = 1`, `t0 = 0`,
idle duration `d = 7`. -/
theorem tokenBucket_burst_refill_witness :
    (consumeRun (NewTokenBucket ((2 : ℕ) : ℚ) 1 0) 0 2).2 = List.replicate 2 true ∧
    ((burstState 2 1 0).Consume 0).2 = false ∧
    ((afterFail 2 1 0).Consume (0 + 1 / 1)).2 = true ∧
    ((afterRefillConsume 2 1 0).Consume (0 + 1 / 1)).2 = false ∧
    ((NewTokenBucket ((2 : ℕ) : ℚ) 1 0).Consume (0 + 7)).1.tokens ≤ ((2 : ℕ) : ℚ) :=
  tokenBucket_burst_refill 2 1 0 7 (by norm_num) (by norm_num) (by norm_num)

/-- C10: the middleware answers 429 exactly when the global limiter exists
and its `Consume` returns `false`; an uninitialized (`nil`) limiter forwards
the request untouched, with no token accounting. -/
theorem rateLimit_rejects_iff (limiter : Option TokenBucket) (now : ℚ) :
    ((RateLimit limiter now).2 = RateLimitOutcome.rejected429 ↔
      ∃ tb, limiter = some tb ∧ (tb.Consume now).2 = false) ∧
    RateLimit none now = (none, RateLimitOutcome.forwarded) := by
  refine ⟨?_, rfl⟩
  cases limiter with
  | none => simp [RateLimit]
  | some tb =>
    cases h : (tb.Consume now).2 <;> simp [RateLimit, h]

/-! ## Hub theorems -/

/-- Deleting a key makes its lookup fail. -/
theorem lookupKey_eraseKey_self (k : Nat) :
    ∀ (l : List (Nat × α)), lookupKey k (eraseKey k l) = none := by
  intro l
  induction l with
  | nil => rfl
  | cons p rest ih =>
    by_cases h : p.1 = k
    · simp only [eraseKey, if_pos h]
      exact ih
    · simp only [eraseKey, if_neg h, lookupKey, if_neg h]
      exact ih

/-- Deleting one key leaves every other key's lookup unchanged. -/
theorem lookupKey_eraseKey_ne (k u : Nat) (h : u ≠ k) :
    ∀ (l : List (Nat × α)), lookupKey u (eraseKey k l) = lookupKey u l := by
  intro l
  induction l with
  | nil => rfl
  | cons p rest ih =>
    by_cases hp : p.1 = k
    · have hpu : p.1 ≠ u := by rw [hp]; exact fun e => h e.symm
      simp only [eraseKey, if_pos hp, lookupKey, if_neg hpu]
      exact ih
    · by_cases hu : p.1 = u
      · simp only [eraseKey, if_neg hp, lookupKey, if_pos hu]
      · simp only [eraseKey, if_neg hp, lookupKey, if_neg hu]
        exact ih

/-- C3: when `Submit` reaches a registered identity whose connection's
outbound queue is full, the hub closes that connection's send channel and
deletes its registry entry; every other identity's registry entry, and all
queue contents, are untouched. -/
theorem hub_submit_full_disconnects (s : HubState) (uid : UserID) (payload : Payload)
    (cid : ConnID) (hreg : lookupKey uid s.clients = some cid)
    (hfull : s.sendCap ≤ ((lookupKey cid s.queues).getD []).length) :
    submitOne s uid payload =
      { s with clients := eraseKey uid s.clients, closedChans := cid :: s.closedChans } ∧
    lookupKey uid (submitOne s uid payload).clients = none ∧
    (∀ u : UserID, u ≠ uid →
      lookupKey u (submitOne s uid payload).clients = lookupKey u s.clients) ∧
    (submitOne s uid payload).queues = s.queues := by
  have hstep : submitOne s uid payload =
      { s with clients := eraseKey uid s.clients, closedChans := cid :: s.closedChans } := by
    unfold submitOne
    rw [hreg]
    dsimp only
    rw [if_neg (not_lt.mpr hfull)]
  refine ⟨hstep, ?_, ?_, ?_⟩
  · rw [hstep]
    exact lookupKey_eraseKey_self uid s.clients
  · intro u hu
    rw [hstep]
    exact lookupKey_eraseKey_ne uid u hu s.clients
  · rw [hstep]

/-- Witness for `hub_submit_full_disconnects`: one registered client (user 1,
connection 10) whose queue of length 1 meets the capacity 1. -/
theorem hub_submit_full_disconnects_witness :
    submitOne ⟨[(1, 10)], [(10, [[7]])], [], 1⟩ 1 [9] =
      { (⟨[(1, 10)], [(10, [[7]])], [], 1⟩ : HubState) with
          clients := eraseKey 1 [(1, 10)], closedChans := 10 :: [] } ∧
    lookupKey 1 (submitOne ⟨[(1, 10)], [(10, [[7]])], [], 1⟩ 1 [9]).clients = none ∧
    (∀ u : UserID, u ≠ 1 →
      lookupKey u (submitOne ⟨[(1, 10)], [(10, [[7]])], [], 1⟩ 1 [9]).clients =
        lookupKey u [(1, 10)]) ∧
    (submitOne ⟨[(1, 10)], [(10, [[7]])], [], 1⟩ 1 [9]).queues = [(10, [[7]])] :=
  hub_submit_full_disconnects ⟨[(1, 10)], [(10, [[7]])], [], 1⟩ 1 [9] 10 (by decide)
    (by decide)

/-- C8: submitting a payload for an identity with no registered connection
leaves the hub state exactly as it was (the embedded step is total, so no
error is raised either). -/
theorem hub_submit_unregistered_noop (s : HubState) (uid : UserID) (payload : Payload)
    (h : lookupKey uid s.clients = none) :
    submitOne s uid payload = s := by
  unfold submitOne
  rw [h]

/-- Witness for `hub_submit_unregistered_noop`: identity 4 is not in the
registry holding only identity 3. -/
theorem hub_submit_unregistered_noop_witness :
    submitOne ⟨[(3, 5)], [(5, [])], [], 256⟩ 4 [1] = ⟨[(3, 5)], [(5, [])], [], 256⟩ :=
  hub_submit_unregistered_noop ⟨[(3, 5)], [(5, [])], [], 256⟩ 4 [1] (by decide)

/-- C9 (amended): `Unregister(c)` is keyed by identity for the registry —
whenever any connection is registered under `c`'s identity, that identity's
entry is deleted (even when it routes to a different, newer connection) and
other identities and all queues are untouched — but the send channel it
closes is the argument `c`'s own channel, not the currently registered
connection's. -/
theorem hub_unregister_by_identity (s : HubState) (c : Client) (xcid : ConnID)
    (h : lookupKey c.userID s.clients = some xcid) :
    (unregisterStep s c).clients = eraseKey c.userID s.clients ∧
    lookupKey c.userID (unregisterStep s c).clients = none ∧
    (unregisterStep s c).closedChans = c.cid :: s.closedChans ∧
    (∀ u : UserID, u ≠ c.userID →
      lookupKey u (unregisterStep s c).clients = lookupKey u s.clients) ∧
    (unregisterStep s c).queues = s.queues := by
  have hstep : unregisterStep s c =
      { s with clients := eraseKey c.userID s.clients,
               closedChans := c.cid :: s.closedChans } := by
    unfold unregisterStep
    rw [h]
  refine ⟨by rw [hstep], ?_, by rw [hstep], ?_, by rw [hstep]⟩
  · rw [hstep]
    exact lookupKey_eraseKey_self c.userID s.clients
  · intro u hu
    rw [hstep]
    exact lookupKey_eraseKey_ne c.userID u hu s.clients

/-- C9 counterexample: user 7's registry entry routes to connection 2, yet
unregistering the stale connection 1 (same user) closes channel 1 — the
argument's channel — and not channel 2 of the registered connection, while
still deleting user 7's entry. The claim's "closes X's send queue" is false
for the registered connection X. -/
theorem hub_unregister_counterexample :
    (unregisterStep ⟨[(7, 2)], [(2, []), (1, [])], [], 256⟩ ⟨1, 7⟩).closedChans = [1] ∧
    ¬ ((2 : ConnID) ∈
        (unregisterStep ⟨[(7, 2)], [(2, []), (1, [])], [], 256⟩ ⟨1, 7⟩).closedChans) ∧
    lookupKey 7 (unregisterStep ⟨[(7, 2)], [(2, []), (1, [])], [], 256⟩ ⟨1, 7⟩).clients =
      none := by
  decide

/-- Witness for `hub_unregister_by_identity`: connection 2 is registered for
user 7; unregistering the distinct connection 1 for the same user. -/
theorem hub_unregister_by_identity_witness :
    (unregisterStep ⟨[(7, 2)], [(2, [])], [], 256⟩ ⟨1, 7⟩).clients = eraseKey 7 [(7, 2)] ∧
    lookupKey 7 (unregisterStep ⟨[(7, 2)], [(2, [])], [], 256⟩ ⟨1, 7⟩).clients = none ∧
    (unregisterStep ⟨[(7, 2)], [(2, [])], [], 256⟩ ⟨1, 7⟩).closedChans = 1 :: [] ∧
    (∀ u : UserID, u ≠ 7 →
      lookupKey u (unregisterStep ⟨[(7, 2)], [(2, [])], [], 256⟩ ⟨1, 7⟩).clients =
        lookupKey u [(7, 2)]) ∧
    (unregisterStep ⟨[(7, 2)], [(2, [])], [], 256⟩ ⟨1, 7⟩).queues = [(2, [])] :=
  hub_unregister_by_identity ⟨[(7, 2)], [(2, [])], [], 256⟩ ⟨1, 7⟩ 2 (by decide)

/-! ## Scraper theorems -/

/-- Running the item loop from any starting accounting adds exactly the
number of successful inserts, the number of non-duplicate failures, and the
number of items. -/
theorem scrapeFold : ∀ (rs : List CreatePostResult) (s : ScrapeState),
    rs.foldl scrapeStep s =
      { newPostCount := s.newPostCount + createdCount rs,
        errorsLogged := s.errorsLogged + hardFailureCount rs,
        processed := s.processed + rs.length } := by
  intro rs
  induction rs with
  | nil =>
    intro s
    simp [createdCount, hardFailureCount]
  | cons r rs ih =>
    intro s
    cases r with
    | created =>
      simp only [List.foldl_cons, scrapeStep, ih, createdCount, hardFailureCount,
        List.length_cons, ScrapeState.mk.injEq, true_and, and_true]
      omega
    | pqError code =>
      by_cases hc : code = "23505" <;>
        simp [List.foldl_cons, scrapeStep, ih, createdCount, hardFailureCount,
          List.length_cons, ScrapeState.mk.injEq, hc, true_and, and_true] <;>
        omega
    | otherError =>
      simp only [List.foldl_cons, scrapeStep, ih, createdCount, hardFailureCount,
        List.length_cons, ScrapeState.mk.injEq, true_and, and_true]
      omega

/-- C2: per item, a successful insert bumps the per-cycle counter by exactly
1; a unique-violation (`23505`) insert is a silent no-op; any other failure
is logged without bumping the counter; and in every case the loop proceeds to
the next item, so over a whole feed the counter equals the number of
successful inserts, the error log count equals the number of non-duplicate
failures, and every item is processed. -/
theorem scrape_item_accounting :
    (∀ (s : ScrapeState) (r : CreatePostResult),
      (scrapeStep s r).newPostCount =
        s.newPostCount + (if r = CreatePostResult.created then 1 else 0) ∧
      (scrapeStep s r).errorsLogged =
        s.errorsLogged +
          (if r = CreatePostResult.created ∨ r = CreatePostResult.pqError "23505" then 0
            else 1) ∧
      (scrapeStep s r).processed = s.processed + 1) ∧
    (∀ rs : List CreatePostResult,
      (scrapeFeedItems rs).newPostCount = createdCount rs ∧
      (scrapeFeedItems rs).errorsLogged = hardFailureCount rs ∧
      (scrapeFeedItems rs).processed = rs.length) := by
  constructor
  · intro s r
    cases r with
    | created => simp [scrapeStep]
    | pqError code =>
      by_cases hc : code = "23505" <;> simp [scrapeStep, hc]
    | otherError => simp [scrapeStep]
  · intro rs
    have h := scrapeFold rs { newPostCount := 0, errorsLogged := 0, processed := 0 }
    simp [scrapeFeedItems, h]

/-- The Go `range` dispatch loop launches tasks in exactly the order of the
list it iterates. -/
theorem foldl_append_singleton : ∀ (l acc : List α),
    l.foldl (fun a x => a ++ [x]) acc = acc ++ l := by
  intro l
  induction l with
  | nil =>
    intro acc
    simp
  | cons x xs ih =>
    intro acc
    simp only [List.foldl_cons, ih]
    simp

/-- C6: the per-cycle feed list is a permutation of the feed table sorted by
priority descending then last-updated ascending, and `StartScraping`
dispatches exactly one task per feed, in that list order. -/
theorem feeds_priority_order_dispatch (db : List Feed) :
    (GetFeedsByPriority db).Perm db ∧
    List.Sorted feedOrder (GetFeedsByPriority db) ∧
    startCycle db = GetFeedsByPriority db := by
  refine ⟨List.perm_insertionSort feedOrder db, List.sorted_insertionSort feedOrder db, ?_⟩
  unfold startCycle
  rw [foldl_append_singleton]
  simp

/-- Scanning a spawn block pushes the spawned tasks (in reverse, stack-wise)
onto the pending multiset without consulting any tick. -/
theorem overlapFreeAux_spawns (i : Nat) :
    ∀ (fs : List Feed) (pend : List (Nat × Nat)) (rest : List SchedEvent),
    overlapFreeAux pend (fs.map (fun f => SchedEvent.spawn i f.id) ++ rest) =
      overlapFreeAux ((fs.map (fun f => (i, f.id))).reverse ++ pend) rest := by
  intro fs
  induction fs with
  | nil =>
    intro pend rest
    simp
  | cons f fs ih =>
    intro pend rest
    simp only [List.map_cons, List.cons_append, overlapFreeAux, List.reverse_cons,
      List.append_eq]
    rw [ih]
    congr 1
    simp [List.append_assoc]

/-- Scanning a join block erases the joined tasks from the pending multiset
without consulting any tick. -/
theorem overlapFreeAux_joins (i : Nat) :
    ∀ (fs : List Feed) (pend : List (Nat × Nat)) (rest : List SchedEvent),
    overlapFreeAux pend (fs.map (fun f => SchedEvent.join i f.id) ++ rest) =
      overlapFreeAux ((fs.map (fun f => ((i, f.id) : Nat × Nat))).foldl
        (fun p x => eraseTask x p) pend) rest := by
  intro fs
  induction fs with
  | nil =>
    intro pend rest
    simp
  | cons f fs ih =>
    intro pend rest
    simp only [List.map_cons, List.cons_append, overlapFreeAux, List.foldl_cons,
      List.append_eq]
    exact ih (eraseTask (i, f.id) pend) rest

/-- Any member can be rotated to the front of a list up to permutation, with
`eraseTask` removing exactly that occurrence. -/
theorem perm_cons_eraseTask : ∀ (p : List (Nat × Nat)) (x : Nat × Nat), x ∈ p →
    p.Perm (x :: eraseTask x p) := by
  intro p
  induction p with
  | nil =>
    intro x hx
    exact absurd hx (List.not_mem_nil x)
  | cons y p ih =>
    intro x hx
    by_cases hy : y = x
    · subst hy
      simp only [eraseTask, if_pos rfl]
      exact List.Perm.refl _
    · have hxp : x ∈ p := by
        rcases List.mem_cons.mp hx with h | h
        · exact absurd h.symm hy
        · exact h
      simp only [eraseTask, if_neg hy]
      exact ((ih x hxp).cons y).trans (List.Perm.swap x y (eraseTask x p))

/-- Erasing, one by one, every element of a multiset equal to the pending set
empties it — the `wg.Wait()` barrier drains exactly what the cycle spawned. -/
theorem erase_all_of_perm : ∀ (xs pend : List (Nat × Nat)), pend.Perm xs →
    xs.foldl (fun p x => eraseTask x p) pend = [] := by
  intro xs
  induction xs with
  | nil =>
    intro pend h
    simpa using h.eq_nil
  | cons x xs ih =>
    intro pend h
    have hx : x ∈ pend := h.mem_iff.mpr (List.mem_cons_self x xs)
    have h2 : (eraseTask x pend).Perm xs :=
      ((perm_cons_eraseTask pend x hx).symm.trans h).cons_inv
    rw [List.foldl_cons]
    exact ih (eraseTask x pend) h2

/-- C4 (amended): the scheduler never overlaps cycles — at every tick of the
`StartScraping` loop's trace, no task of an earlier cycle is still pending,
because each iteration's `wg.Wait()` joins all of its tasks before the loop
returns to the ticker. -/
theorem scheduler_cycles_serialized (dbs : List (List Feed)) :
    overlapFreeAux [] (schedulerTrace 0 dbs) = true := by
  suffices h : ∀ (l : List (List Feed)) (i : Nat),
      overlapFreeAux [] (schedulerTrace i l) = true from h dbs 0
  intro l
  induction l with
  | nil =>
    intro i
    rfl
  | cons db rest ih =>
    intro i
    simp only [schedulerTrace, cycleEvents, List.cons_append, overlapFreeAux,
      List.isEmpty_nil, Bool.true_and, List.append_eq, List.append_assoc]
    rw [overlapFreeAux_spawns, overlapFreeAux_joins]
    have hperm : List.Perm
        (((GetFeedsByPriority db).map (fun f => ((i, f.id) : Nat × Nat))).reverse ++
          ([] : List (Nat × Nat)))
        ((GetFeedsByPriority db).map (fun f => ((i, f.id) : Nat × Nat))) := by
      simp [List.reverse_perm]
    rw [erase_all_of_perm _ _ hperm]
    exact ih (i + 1)

/-- C4 counterexample: with one feed per cycle over two ticks, the code's
trace joins cycle 0's task strictly before cycle 1's tick and task launch —
the loop waits (`wg.Wait()`) instead of stacking cycles in parallel. -/
theorem scheduler_no_overlap_counterexample :
    schedulerTrace 0 [[⟨1, 5, 0⟩], [⟨2, 3, 0⟩]] =
      [SchedEvent.tick 0, SchedEvent.spawn 0 1, SchedEvent.join 0 1,
        SchedEvent.tick 1, SchedEvent.spawn 1 2, SchedEvent.join 1 2] ∧
    (schedulerTrace 0 [[⟨1, 5, 0⟩], [⟨2, 3, 0⟩]]).indexOf (SchedEvent.join 0 1) <
      (schedulerTrace 0 [[⟨1, 5, 0⟩], [⟨2, 3, 0⟩]]).indexOf (SchedEvent.tick 1) ∧
    overlapFreeAux [] (schedulerTrace 0 [[⟨1, 5, 0⟩], [⟨2, 3, 0⟩]]) = true := by
  refine ⟨rfl, ?_, rfl⟩
  decide
